import Mathlib

/-!
Verification of the scrolling-text video renderer in `src/main.py`.

Shallow embedding conventions: Python strings are lists of characters;
Python float arithmetic in the scroll interpolator is modelled exactly
over `ℚ`; functions that can raise return `Option` / `Except`, with
`none` / `Except.error` standing for a raised exception.
-/

set_option autoImplicit false

namespace TextVideo

/-- Whitespace test of Python `str.split()` / `str.strip()`, on the ASCII
whitespace characters (space, tab, newline, carriage return, vertical tab,
form feed). -/
def pyIsSpace (c : Char) : Bool :=
  decide (c.toNat = 32 ∨ c.toNat = 9 ∨ c.toNat = 10 ∨ c.toNat = 13 ∨
    c.toNat = 11 ∨ c.toNat = 12)

/-- Python `str.strip()`: remove leading and trailing whitespace. -/
def pyStrip (l : List Char) : List Char :=
  ((l.dropWhile pyIsSpace).reverse.dropWhile pyIsSpace).reverse

/-- Accumulator worker for `pySplit`; the accumulator holds the current word
reversed. -/
def splitAux : List Char → List Char → List (List Char)
  | acc, [] => if acc = [] then [] else [acc.reverse]
  | acc, c :: cs =>
      if pyIsSpace c then
        if acc = [] then splitAux [] cs else acc.reverse :: splitAux [] cs
      else splitAux (c :: acc) cs

/-- Python `text.split()`: split on whitespace runs, dropping empty tokens. -/
def pySplit (l : List Char) : List (List Char) := splitAux [] l

/-- Hex-digit test of Python `int(_, 16)`: codepoints of 0-9, a-f, A-F. -/
def pyHexDigit (c : Char) : Bool :=
  decide ((48 ≤ c.toNat ∧ c.toNat ≤ 57) ∨ (97 ≤ c.toNat ∧ c.toNat ≤ 102) ∨
    (65 ≤ c.toNat ∧ c.toNat ≤ 70))

/-- Numeric value of a hex digit. -/
def hexVal (c : Char) : Nat :=
  if 48 ≤ c.toNat ∧ c.toNat ≤ 57 then c.toNat - 48
  else if 97 ≤ c.toNat ∧ c.toNat ≤ 102 then c.toNat - 87
  else if 65 ≤ c.toNat ∧ c.toNat ≤ 70 then c.toNat - 55
  else 0

/-- Digit run of `int(_, 16)`: hex digits, single underscores allowed only
between two digits. -/
def hexDigits : Nat → List Char → Option Nat
  | acc, [] => some acc
  | acc, c :: cs =>
      if c = '_' then
        match cs with
        | [] => none
        | d :: ds => if pyHexDigit d then hexDigits (acc * 16 + hexVal d) ds else none
      else if pyHexDigit c then hexDigits (acc * 16 + hexVal c) cs else none

/-- A nonempty digit run (first character must be a hex digit). -/
def pyIntHexDigits : List Char → Option Nat
  | [] => none
  | c :: cs => if pyHexDigit c then hexDigits (hexVal c) cs else none

/-- Digits after an `0x` prefix; one underscore may separate prefix and digits. -/
def pyHexAfterPrefix : List Char → Option Nat
  | [] => none
  | c :: cs => if c = '_' then pyIntHexDigits cs else pyIntHexDigits (c :: cs)

/-- Magnitude part of `int(_, 16)`: optional `0x`/`0X` prefix, then digits. -/
def pyIntHexMag (l : List Char) : Option Nat :=
  match l with
  | a :: b :: rest =>
      if a = '0' ∧ (b = 'x' ∨ b = 'X') then pyHexAfterPrefix rest else pyIntHexDigits l
  | _ => pyIntHexDigits l

/-- Python `int(s, 16)`: surrounding whitespace stripped, optional sign, then
the magnitude; `none` models a raised `ValueError`. -/
def pyIntHex (l : List Char) : Option Int :=
  match pyStrip l with
  | [] => none
  | c :: rest =>
      if c = '+' then (pyIntHexMag rest).map (fun n => (n : Int))
      else if c = '-' then (pyIntHexMag rest).map (fun n => -(n : Int))
      else (pyIntHexMag (c :: rest)).map (fun n => (n : Int))

/-- `hex_to_rgb` from `src/main.py`: leading `#` characters stripped, 3-digit
shorthand doubled digitwise, any length other than 3 or 6 returns the fixed
fallback (15, 23, 42); `none` models a `ValueError` escaping from `int`. -/
def hex_to_rgb (s : List Char) : Option (Int × Int × Int) :=
  let hex_color := s.dropWhile (fun ch => ch = '#')
  let lv := hex_color.length
  if lv = 3 ∨ lv = 6 then
    let h2 := if lv = 3 then hex_color.flatMap (fun ch => [ch, ch]) else hex_color
    match pyIntHex ((h2.drop 0).take 2), pyIntHex ((h2.drop 2).take 2),
        pyIntHex ((h2.drop 4).take 2) with
    | some r, some g, some b => some (r, g, b)
    | _, _, _ => none
  else
    some (15, 23, 42)

/-- Greedy accumulation loop of `wrap_text` (`src/main.py`, lines 84-94).
`draw.textbbox` width measurement is abstracted into `measure`. -/
def wrapLoop (measure : List Char → Nat) (max_width : Nat) :
    List Char → List (List Char) → List (List Char)
  | line, [] => if line = [] then [] else [line]
  | line, w :: ws =>
      let test := pyStrip (line ++ ' ' :: w)
      if measure test ≤ max_width ∨ line = [] then wrapLoop measure max_width test ws
      else line :: wrapLoop measure max_width w ws

/-- `wrap_text` from `src/main.py`: split the text into words and wrap them
greedily against the pixel-width measure. -/
def wrap_text (measure : List Char → Nat) (text : List Char) (max_width : Nat) :
    List (List Char) :=
  wrapLoop measure max_width [] (pySplit text)

/-- `total_text_height = max(len(lines) * line_spacing, height) + height`
(`src/main.py`, line 120). -/
def total_text_height (nlines line_spacing height : Nat) : Nat :=
  max (nlines * line_spacing) height + height

/-- `total_frames = duration * fps` (`src/main.py`, line 123). -/
def total_frames (duration fps : Nat) : Nat := duration * fps

/-- `start_y = height` (`src/main.py`, line 124). -/
def start_y (height : Nat) : Int := (height : Int)

/-- `end_y = -total_text_height` (`src/main.py`, line 125). -/
def end_y (nlines line_spacing height : Nat) : Int :=
  -(total_text_height nlines line_spacing height : Int)

/-- `t = frame_idx / (total_frames - 1 if total_frames > 1 else 1)`
(`src/main.py`, line 128), modelled exactly over `ℚ`. -/
def frame_t (tf i : Nat) : ℚ :=
  (i : ℚ) / ((if 1 < tf then tf - 1 else 1 : Nat) : ℚ)

/-- Python `int()` on a number: truncation toward zero. -/
def pyInt (q : ℚ) : Int := if q < 0 then ⌈q⌉ else ⌊q⌋

/-- Python `round()` on a number: round half to even. -/
def pyRound (q : ℚ) : Int :=
  let f := ⌊q⌋
  let r := q - (f : ℚ)
  if r < 1/2 then f
  else if 1/2 < r then f + 1
  else if f % 2 = 0 then f else f + 1

/-- `current_offset = int(start_y + (end_y - start_y) * t)`
(`src/main.py`, line 129). -/
def current_offset (sy ey : Int) (tf i : Nat) : Int :=
  pyInt ((sy : ℚ) + ((ey : ℚ) - (sy : ℚ)) * frame_t tf i)

/-- The per-frame vertical scroll offsets produced by
`generate_scrolling_text_frames` (`src/main.py`, lines 120-136), one entry
per yielded frame. -/
def scroll_offsets (nlines line_spacing height fps duration : Nat) : List Int :=
  (List.range (total_frames duration fps)).map
    (current_offset (start_y height) (end_y nlines line_spacing height)
      (total_frames duration fps))

/-- The JSON body of a `/api/generate` request. -/
structure RawRequest where
  text : List Char
  duration : Int
  width : Int
  height : Int
  fps : Int
  background : List Char
  text_color : List Char

/-- Pydantic field validation of `GenerateRequest` (`src/main.py`, lines
35-42): `min_length=1` on text and the `ge`/`le` bounds on the numeric
fields. A request failing these never reaches the handler. -/
def validRequest (r : RawRequest) : Bool :=
  decide (1 ≤ r.text.length ∧ 60 ≤ r.duration ∧ r.duration ≤ 600 ∧
    320 ≤ r.width ∧ r.width ≤ 1920 ∧ 240 ≤ r.height ∧ r.height ≤ 1080 ∧
    10 ≤ r.fps ∧ r.fps ≤ 60)

/-- The duration value reaching the frame-count computation for a request:
field validation, then the blank-text check on the stripped text, then
`duration = max(60, int(req.duration))` (`src/main.py`, lines 158-161).
`none` means the request is rejected before any frame is rendered. -/
def effectiveDuration (r : RawRequest) : Option Int :=
  if validRequest r then
    if pyStrip r.text = [] then none else some (max 60 r.duration)
  else none

/-- A request whose duration is below the validated minimum. -/
def lowDurationRequest : RawRequest :=
  ⟨("Hello world".data), 10, 1280, 720, 24, ("#0f172a".data), ("#e2e8f0".data)⟩

/-- A request passing all field validation. -/
def okRequest : RawRequest :=
  ⟨("Hi there".data), 90, 1280, 720, 24, ("#0f172a".data), ("#e2e8f0".data)⟩

/-- Availability of the lazily imported third-party libraries. -/
structure Deps where
  numpy : Bool
  pil : Bool
  imageio : Bool

/-- Observable actions on the output video writer. -/
inductive WriterEvent where
  | opened
  | appended
  | closed
deriving DecidableEq

/-- The detail string of the dependency-missing `HTTPException`
(`src/main.py`, lines 104 and 144). -/
def depMessage (name : String) : String :=
  "Dependency missing: " ++ name ++ ". Please try again in a moment."

/-- The first missing module reported by the imports at the top of
`generate_scrolling_text_frames` (`import numpy`, then `from PIL import`). -/
def framesImportError (d : Deps) : Option String :=
  if d.numpy = false then some "numpy"
  else if d.pil = false then some "PIL"
  else none

/-- The two `HTTPException` detail shapes the pipeline produces.
`dependencyMissing name` stands for the detail string `depMessage name`
(`src/main.py`, lines 104 and 144); `renderFailure` stands for the generic
detail `Gagal membuat video: {str(e)[:200]}` of line 187, whose text is
never of the dependency-missing form. -/
inductive HTTPDetail where
  | dependencyMissing (name : String)
  | renderFailure
deriving DecidableEq

/-- An exception escaping `render_text_video`: an `HTTPException` carrying
status and detail, or the `ValueError` raised by `hex_to_rgb` (via `int`)
on a color string of valid length with non-hex characters. -/
inductive RenderExc where
  | httpExc (status : Nat) (detail : HTTPDetail)
  | valueError
deriving DecidableEq

/-- `render_text_video` (`src/main.py`, lines 139-153), in source order: it
imports `imageio`, then resolves both colors with `hex_to_rgb` (lines 146-147, a
`ValueError` propagates and the writer is never opened); open the writer;
pull frames from the generator, whose own numpy/PIL imports run on the
first pull; close the writer in the `finally` block. The result pairs the
outcome with the trace of writer events. -/
def render_text_video_run (d : Deps) (background text_color : List Char) (nframes : Nat) :
    Except RenderExc Unit × List WriterEvent :=
  if d.imageio = false then
    (Except.error (RenderExc.httpExc 500 (HTTPDetail.dependencyMissing "imageio")), [])
  else
    match hex_to_rgb background with
    | none => (Except.error RenderExc.valueError, [])
    | some _ =>
        match hex_to_rgb text_color with
        | none => (Except.error RenderExc.valueError, [])
        | some _ =>
            match framesImportError d with
            | some name =>
                (Except.error (RenderExc.httpExc 500 (HTTPDetail.dependencyMissing name)),
                  [WriterEvent.opened, WriterEvent.closed])
            | none =>
                (Except.ok (),
                  WriterEvent.opened :: (List.replicate nframes WriterEvent.appended ++
                    [WriterEvent.closed]))

/-- Error handling of `generate_video` (`src/main.py`, lines 166-187): an
`HTTPException` is re-raised as-is with no cleanup attempt; any other
exception (here the `ValueError` from a bad color) triggers a best-effort
removal of the output file and a generic 500 with the render-failure
detail. The third component records whether a removal of the output file
was attempted. -/
def generate_video_run (d : Deps) (background text_color : List Char) (nframes : Nat) :
    Except (Nat × HTTPDetail) Unit × List WriterEvent × Bool :=
  let res := render_text_video_run d background text_color nframes
  match res.1 with
  | Except.error (RenderExc.httpExc s det) => (Except.error (s, det), res.2, false)
  | Except.error RenderExc.valueError =>
      (Except.error (500, HTTPDetail.renderFailure), res.2, true)
  | Except.ok _ => (Except.ok (), res.2, false)

/-- Modelled from the spec: the encoder adapter of section 4.5 is the
external `imageio` writer, absent from `src/`; it materializes the output
file on disk when the first frame is appended, so a writer that is opened
and closed without any appended frame leaves no file. The file exists
afterwards iff some frame was appended and the file was not removed. -/
def file_exists_after (events : List WriterEvent) (removed : Bool) : Bool :=
  events.contains WriterEvent.appended && !removed

/-- Color resolution step of `render_text_video` (`src/main.py`, lines
146-147): both colors are parsed before the writer is created; a
`ValueError` from either propagates. -/
def render_colors (background text_color : List Char) :
    Option ((Int × Int × Int) × (Int × Int × Int)) :=
  match hex_to_rgb background, hex_to_rgb text_color with
  | some b, some t => some (b, t)
  | _, _ => none

/-- A word as produced by `pySplit`: nonempty and whitespace-free. -/
def CleanWord (w : List Char) : Prop :=
  w ≠ [] ∧ ∀ c ∈ w, pyIsSpace c = false

/-- Join words with single spaces, as the accumulated `line` of `wrap_text`. -/
def joinSp : List (List Char) → List Char
  | [] => []
  | [w] => w
  | w :: v :: ws => w ++ ' ' :: joinSp (v :: ws)

/-! ## Lemmas about the hex color parser -/

theorem pyHexDigit_toNat (c : Char) (h : pyHexDigit c = true) :
    (48 ≤ c.toNat ∧ c.toNat ≤ 57) ∨ (97 ≤ c.toNat ∧ c.toNat ≤ 102) ∨
    (65 ≤ c.toNat ∧ c.toNat ≤ 70) :=
  of_decide_eq_true h

theorem ne_of_toNat_ne (c d : Char) (h : c.toNat ≠ d.toNat) : c ≠ d :=
  fun he => h (congrArg Char.toNat he)

theorem hexDigit_not_space (c : Char) (h : pyHexDigit c = true) :
    pyIsSpace c = false := by
  have hb := pyHexDigit_toNat c h
  rw [pyIsSpace, decide_eq_false_iff_not]
  omega

theorem hexDigit_ne (c : Char) (h : pyHexDigit c = true) :
    c ≠ '+' ∧ c ≠ '-' ∧ c ≠ '_' ∧ c ≠ 'x' ∧ c ≠ 'X' := by
  have hb := pyHexDigit_toNat c h
  refine ⟨ne_of_toNat_ne c _ ?_, ne_of_toNat_ne c _ ?_, ne_of_toNat_ne c _ ?_,
    ne_of_toNat_ne c _ ?_, ne_of_toNat_ne c _ ?_⟩ <;> simp <;> omega

theorem pyStrip_pair (a b : Char) (ha : pyIsSpace a = false) (hb : pyIsSpace b = false) :
    pyStrip [a, b] = [a, b] := by
  rw [pyStrip]
  rw [List.dropWhile_cons, ha]
  simp only [Bool.false_eq_true, if_false]
  rw [show ([a, b] : List Char).reverse = [b, a] from by simp]
  rw [List.dropWhile_cons, hb]
  simp

/-- `int(s, 16)` on a two-hex-digit string: the positional value. -/
theorem pyIntHex_pair (a b : Char) (ha : pyHexDigit a = true) (hb : pyHexDigit b = true) :
    pyIntHex [a, b] = some ((hexVal a * 16 + hexVal b : Nat) : Int) := by
  have hsa := hexDigit_not_space a ha
  have hsb := hexDigit_not_space b hb
  have hna := hexDigit_ne a ha
  have hnb := hexDigit_ne b hb
  rw [pyIntHex, pyStrip_pair a b hsa hsb]
  simp only [hna.1, hna.2.1, if_false, ite_false]
  rw [pyIntHexMag]
  simp only [hnb.2.2.2.1, hnb.2.2.2.2, false_or, and_false, if_false]
  rw [pyIntHexDigits]
  simp only [ha, if_pos, ite_true]
  rw [hexDigits]
  simp only [hnb.2.2.1, hb, if_false, ite_false, ite_true]
  rw [hexDigits]
  simp

theorem hexVal_le (c : Char) : hexVal c ≤ 15 := by
  rw [hexVal]
  split_ifs <;> omega

/-- Claim C4: for every well-formed 3- or 6-digit hex string (leading `#`
stripped), `hex_to_rgb` returns the standard hex parse, each channel in
[0, 255] (the channels are nonnegative by construction, being casts of
naturals); for every other digit count it returns exactly (15, 23, 42)
without raising. -/
theorem hex_to_rgb_spec (s : List Char) :
    (∀ a b c : Char, s.dropWhile (fun ch => ch = '#') = [a, b, c] →
      pyHexDigit a = true → pyHexDigit b = true → pyHexDigit c = true →
      hex_to_rgb s = some (((17 * hexVal a : Nat) : Int), ((17 * hexVal b : Nat) : Int),
        ((17 * hexVal c : Nat) : Int)) ∧
      17 * hexVal a ≤ 255 ∧ 17 * hexVal b ≤ 255 ∧ 17 * hexVal c ≤ 255) ∧
    (∀ a b c d e f : Char, s.dropWhile (fun ch => ch = '#') = [a, b, c, d, e, f] →
      pyHexDigit a = true → pyHexDigit b = true → pyHexDigit c = true →
      pyHexDigit d = true → pyHexDigit e = true → pyHexDigit f = true →
      hex_to_rgb s = some (((16 * hexVal a + hexVal b : Nat) : Int),
        ((16 * hexVal c + hexVal d : Nat) : Int), ((16 * hexVal e + hexVal f : Nat) : Int)) ∧
      16 * hexVal a + hexVal b ≤ 255 ∧ 16 * hexVal c + hexVal d ≤ 255 ∧
      16 * hexVal e + hexVal f ≤ 255) ∧
    ((s.dropWhile (fun ch => ch = '#')).length ≠ 3 →
      (s.dropWhile (fun ch => ch = '#')).length ≠ 6 →
      hex_to_rgb s = some (15, 23, 42)) := by
  refine ⟨?_, ?_, ?_⟩
  · intro a b c hdrop ha hb hc
    have hva := hexVal_le a
    have hvb := hexVal_le b
    have hvc := hexVal_le c
    refine ⟨?_, by omega, by omega, by omega⟩
    rw [hex_to_rgb]
    simp only [hdrop]
    norm_num
    rw [pyIntHex_pair a a ha ha, pyIntHex_pair b b hb hb, pyIntHex_pair c c hc hc]
    simp only [Option.some_inj, Prod.mk.injEq]
    refine ⟨?_, ?_, ?_⟩ <;> (push_cast; ring)
  · intro a b c d e f hdrop ha hb hc hd he hf
    have hva := hexVal_le a
    have hvb := hexVal_le b
    have hvc := hexVal_le c
    have hvd := hexVal_le d
    have hve := hexVal_le e
    have hvf := hexVal_le f
    refine ⟨?_, by omega, by omega, by omega⟩
    rw [hex_to_rgb]
    simp only [hdrop]
    norm_num
    rw [pyIntHex_pair a b ha hb, pyIntHex_pair c d hc hd, pyIntHex_pair e f he hf]
    simp only [Option.some_inj, Prod.mk.injEq]
    refine ⟨?_, ?_, ?_⟩ <;> (push_cast; ring)
  · intro h3 h6
    rw [hex_to_rgb]
    simp only [h3, h6, or_self, if_false]

/-- Witness: the C4 theorem applied to the concrete string "#1a2b3c". -/
theorem hex_to_rgb_spec_witness :
    hex_to_rgb ("#1a2b3c".data) = some (((16 * hexVal '1' + hexVal 'a' : Nat) : Int),
      ((16 * hexVal '2' + hexVal 'b' : Nat) : Int),
      ((16 * hexVal '3' + hexVal 'c' : Nat) : Int)) ∧
    16 * hexVal '1' + hexVal 'a' ≤ 255 ∧ 16 * hexVal '2' + hexVal 'b' ≤ 255 ∧
    16 * hexVal '3' + hexVal 'c' ≤ 255 :=
  (hex_to_rgb_spec ("#1a2b3c".data)).2.1 '1' 'a' '2' 'b' '3' 'c' (by decide)
    (by decide) (by decide) (by decide) (by decide) (by decide) (by decide)

/-- Claim C6, as stated, is false: the text color "bad" is a well-formed
3-digit hex string, so `hex_to_rgb` expands it to (187, 170, 221) rather
than returning the (15, 23, 42) fallback. -/
theorem hex_bad_cex :
    hex_to_rgb ("bad".data) = some (187, 170, 221) ∧
    (some ((187 : Int), (170 : Int), (221 : Int)) : Option (Int × Int × Int)) ≠
      some (15, 23, 42) := by
  constructor <;> decide

/-- Claim C6 amended: background "#fff" resolves to (255, 255, 255) via
3-digit expansion; text color "bad" is itself a valid 3-digit hex string
and resolves to (187, 170, 221) via the same expansion, not the fallback. -/
theorem hex_fff_bad_spec :
    hex_to_rgb ("#fff".data) = some (255, 255, 255) ∧
    hex_to_rgb ("bad".data) = some (187, 170, 221) := by
  constructor <;> decide

/-- Claim C10: length-3 and length-6 hex strings containing a non-hex
character make `hex_to_rgb` raise a `ValueError` (modelled as `none`):
neither a parsed color nor the fallback. The color-resolution step of
`render_text_video` then propagates the error, failing the request. -/
theorem hex_invalid_chars_raise :
    hex_to_rgb ("ggg".data) = none ∧ hex_to_rgb ("zzzzzz".data) = none ∧
    render_colors ("#0f172a".data) ("ggg".data) = none := by
  refine ⟨by decide, by decide, by decide⟩

/-! ## Basic lemmas about the scroll interpolator -/

theorem pyInt_intCast (z : Int) : pyInt ((z : ℚ)) = z := by
  rw [pyInt]
  split
  · exact Int.ceil_intCast z
  · exact Int.floor_intCast z

theorem frame_t_zero (tf : Nat) : frame_t tf 0 = 0 := by
  rw [frame_t]
  simp

theorem current_offset_zero (sy ey : Int) (tf : Nat) :
    current_offset sy ey tf 0 = sy := by
  rw [current_offset, frame_t_zero, mul_zero, add_zero]
  exact pyInt_intCast sy

/-- Claim C2: for every render, the scroll geometry computed by
`generate_scrolling_text_frames` satisfies
`total_text_height = max(lineCount * line_spacing, frameHeight) + frameHeight`,
`start_y = frameHeight`, and `end_y = -total_text_height`. -/
theorem scroll_geometry_spec (n ls h : Nat) :
    total_text_height n ls h = max (n * ls) h + h ∧
    start_y h = (h : Int) ∧
    end_y n ls h = -(total_text_height n ls h : Int) :=
  ⟨rfl, rfl, rfl⟩

/-- Claim C3, as stated, is false: the offset of frame 201 in a
height-240, 600-frame render is the truncation -1, while
`round(start_y + (end_y - start_y) * t)` is -2. -/
theorem scroll_offset_round_cex :
    (scroll_offsets 1 100 240 10 60)[201]? = some (-1) ∧
    pyRound ((start_y 240 : ℚ) + ((end_y 1 100 240 : ℚ) - (start_y 240 : ℚ)) *
      frame_t (total_frames 60 10) 201) = -2 := by
  have harg : (start_y 240 : ℚ) + ((end_y 1 100 240 : ℚ) - (start_y 240 : ℚ)) *
      frame_t (total_frames 60 10) 201 = (-960 : ℚ)/599 := by
    rw [start_y, end_y, total_text_height, total_frames, frame_t]
    norm_num
  constructor
  · have h201 : (201 : Nat) < total_frames 60 10 := by decide
    rw [scroll_offsets, List.getElem?_map, List.getElem?_range h201]
    simp only [Option.map_some']
    rw [current_offset, harg]
    have hv : pyInt ((-960 : ℚ)/599) = -1 := by
      rw [pyInt, if_pos (by norm_num), Int.ceil_eq_iff]
      constructor <;> norm_num
    rw [hv]
  · rw [harg]
    have hf : (⌊(-960 : ℚ)/599⌋ : Int) = -2 := by
      rw [Int.floor_eq_iff (α := ℚ)]
      constructor <;> norm_num
    rw [pyRound]
    simp only [hf]
    norm_num

/-- Claim C3 amended: the vertical scroll offset of frame `i` equals the
truncation toward zero (Python `int()`) of
`start_y + (end_y - start_y) * t` with `t = i / max(total_frames - 1, 1)`,
and when `total_frames > 1` the first frame's offset equals
`start_y = height`. -/
theorem scroll_offsets_trunc_formula (n ls h fps dur i : Nat)
    (hi : i < total_frames dur fps) :
    (scroll_offsets n ls h fps dur)[i]? =
      some (pyInt ((start_y h : ℚ) + ((end_y n ls h : ℚ) - (start_y h : ℚ)) *
        frame_t (total_frames dur fps) i)) ∧
    (1 < total_frames dur fps →
      (scroll_offsets n ls h fps dur)[0]? = some (start_y h)) := by
  constructor
  · rw [scroll_offsets, List.getElem?_map, List.getElem?_range hi]
    rfl
  · intro h1
    have h0 : 0 < total_frames dur fps := by omega
    rw [scroll_offsets, List.getElem?_map, List.getElem?_range h0]
    simp only [Option.map_some']
    rw [current_offset_zero]

/-- Witness: the amended C3 theorem applied at a concrete render and frame. -/
theorem scroll_offsets_trunc_formula_witness :
    (scroll_offsets 1 100 240 10 60)[0]? =
      some (pyInt ((start_y 240 : ℚ) + ((end_y 1 100 240 : ℚ) - (start_y 240 : ℚ)) *
        frame_t (total_frames 60 10) 0)) ∧
    (1 < total_frames 60 10 → (scroll_offsets 1 100 240 10 60)[0]? = some (start_y 240)) :=
  scroll_offsets_trunc_formula 1 100 240 10 60 0 (by decide)

/-- Claim C5, as stated, is false: with `total_frames = 1` the single frame
is produced at `t = 0` (offset `start_y`), not at `t = 1` (whose offset
would be `end_y = -480`). -/
theorem scroll_degenerate_cex :
    scroll_offsets 1 100 240 1 1 = [start_y 240] ∧
    pyInt ((start_y 240 : ℚ) + ((end_y 1 100 240 : ℚ) - (start_y 240 : ℚ)) * 1) = -480 ∧
    start_y 240 ≠ -480 := by
  refine ⟨?_, ?_, by decide⟩
  · rw [scroll_offsets]
    rw [show total_frames 1 1 = 1 from rfl]
    rw [show List.range 1 = [0] from by decide]
    rw [List.map_cons, List.map_nil, current_offset_zero]
  · have harg : (start_y 240 : ℚ) + ((end_y 1 100 240 : ℚ) - (start_y 240 : ℚ)) * 1 =
        ((-480 : Int) : ℚ) := by
      rw [start_y, end_y, total_text_height]
      norm_num
    rw [harg, pyInt_intCast]

/-- Claim C5 amended: if `total_frames = 1` the generator produces exactly
one frame, at `t = 0` (a static frame at the start position `start_y`);
if `total_frames = 0` it produces no frames at all. Neither is an error. -/
theorem scroll_degenerate_spec (n ls h fps dur : Nat) :
    (total_frames dur fps = 1 → scroll_offsets n ls h fps dur = [start_y h]) ∧
    (total_frames dur fps = 0 → scroll_offsets n ls h fps dur = []) := by
  constructor
  · intro h1
    rw [scroll_offsets, h1]
    rw [show List.range 1 = [0] from by decide]
    rw [List.map_cons, List.map_nil, current_offset_zero]
  · intro h0
    rw [scroll_offsets, h0]
    rfl

/-- Witness: the amended C5 theorem applied at concrete degenerate renders. -/
theorem scroll_degenerate_witness :
    scroll_offsets 2 50 300 1 1 = [start_y 300] ∧ scroll_offsets 2 50 300 0 1 = [] :=
  ⟨(scroll_degenerate_spec 2 50 300 1 1).1 (by decide),
   (scroll_degenerate_spec 2 50 300 0 1).2 (by decide)⟩

/-! ## Request validation and dependency handling -/

/-- Claim C7, as stated, is false: a request with duration = 10 fails the
pydantic field validation (`ge=60`) and is rejected before the handler
runs, so no render with duration 60 takes place. -/
theorem duration_clamp_cex :
    effectiveDuration lowDurationRequest = none ∧ (none : Option Int) ≠ some 60 := by
  constructor <;> decide

/-- Claim C7 amended: a request with duration below 60 (e.g. 10) is
rejected by field validation before the pipeline runs; for every request
that passes validation and has non-blank text, the handler's clamp
`max(60, duration)` is a no-op and the render proceeds with the requested
duration unchanged. -/
theorem duration_valid_passthrough (r : RawRequest) (hv : validRequest r = true)
    (ht : pyStrip r.text ≠ []) : effectiveDuration r = some r.duration := by
  rw [effectiveDuration, if_pos hv, if_neg ht]
  have h60 : (60 : Int) ≤ r.duration := (of_decide_eq_true hv).2.1
  rw [max_eq_right h60]

/-- Witness: the amended C7 theorem applied to a concrete valid request. -/
theorem duration_valid_passthrough_witness :
    effectiveDuration okRequest = some 90 :=
  duration_valid_passthrough okRequest (by decide) (by decide)

/-- Claim C8, as stated, is false: with numpy missing but a malformed text
color, the `ValueError` from `hex_to_rgb` (line 147) is raised before the
generator's numpy import is ever attempted, so the request fails with the
generic render-failure 500 of line 187, whose message does not name the
missing dependency. -/
theorem missing_dependency_cex :
    (generate_video_run ⟨false, true, true⟩ ("#fff".data) ("ggg".data) 3).1 =
      Except.error (500, HTTPDetail.renderFailure) ∧
    HTTPDetail.renderFailure ≠ HTTPDetail.dependencyMissing "numpy" := by
  refine ⟨rfl, by decide⟩

/-- Claim C8 amended: whenever numpy, PIL or imageio is missing at call
time, the request fails with a 500 error and no output file is left behind
(no frame is ever appended, and for the bad-color path removal is also
attempted; see `file_exists_after`). The error message names the missing
dependency — imageio unconditionally (its import precedes everything), and
numpy or PIL (numpy reported first) provided both color strings parse; if
a color fails to parse, the `ValueError` of lines 146-147 preempts that
module loading and the 500 carries the generic render-failure message. -/
theorem missing_dependency_behavior (d : Deps) (bg tc : List Char) (n : Nat)
    (hmiss : d.numpy = false ∨ d.pil = false ∨ d.imageio = false) :
    (∃ det : HTTPDetail, (generate_video_run d bg tc n).1 = Except.error (500, det)) ∧
    file_exists_after (generate_video_run d bg tc n).2.1
      (generate_video_run d bg tc n).2.2 = false ∧
    (d.imageio = false →
      (generate_video_run d bg tc n).1 =
        Except.error (500, HTTPDetail.dependencyMissing "imageio")) ∧
    (d.imageio = true → hex_to_rgb bg ≠ none → hex_to_rgb tc ≠ none →
      (d.numpy = false →
        (generate_video_run d bg tc n).1 =
          Except.error (500, HTTPDetail.dependencyMissing "numpy")) ∧
      (d.numpy = true → d.pil = false →
        (generate_video_run d bg tc n).1 =
          Except.error (500, HTTPDetail.dependencyMissing "PIL"))) := by
  obtain ⟨nu, pi, im⟩ := d
  cases im with
  | false =>
      have hrun : generate_video_run ⟨nu, pi, false⟩ bg tc n =
          (Except.error (500, HTTPDetail.dependencyMissing "imageio"), [], false) := by
        simp [generate_video_run, render_text_video_run]
      refine ⟨⟨HTTPDetail.dependencyMissing "imageio", by rw [hrun]⟩, by rw [hrun]; rfl,
        fun _ => by rw [hrun], fun him => by simp at him⟩
  | true =>
      rcases hbg : hex_to_rgb bg with _ | cbg
      · have hrun : generate_video_run ⟨nu, pi, true⟩ bg tc n =
            (Except.error (500, HTTPDetail.renderFailure), [], true) := by
          simp [generate_video_run, render_text_video_run, hbg]
        refine ⟨⟨HTTPDetail.renderFailure, by rw [hrun]⟩, by rw [hrun]; rfl,
          fun him => by simp at him, fun _ hbgne => absurd rfl hbgne⟩
      · rcases htc : hex_to_rgb tc with _ | ctc
        · have hrun : generate_video_run ⟨nu, pi, true⟩ bg tc n =
              (Except.error (500, HTTPDetail.renderFailure), [], true) := by
            simp [generate_video_run, render_text_video_run, hbg, htc]
          refine ⟨⟨HTTPDetail.renderFailure, by rw [hrun]⟩, by rw [hrun]; rfl,
            fun him => by simp at him, fun _ _ htcne => absurd rfl htcne⟩
        · cases nu with
          | false =>
              have hrun : generate_video_run ⟨false, pi, true⟩ bg tc n =
                  (Except.error (500, HTTPDetail.dependencyMissing "numpy"),
                    [WriterEvent.opened, WriterEvent.closed], false) := by
                simp [generate_video_run, render_text_video_run, framesImportError,
                  hbg, htc]
              refine ⟨⟨HTTPDetail.dependencyMissing "numpy", by rw [hrun]⟩,
                by rw [hrun]; rfl, fun him => by simp at him,
                fun _ _ _ => ⟨fun _ => by rw [hrun], fun hnu => by simp at hnu⟩⟩
          | true =>
              cases pi with
              | false =>
                  have hrun : generate_video_run ⟨true, false, true⟩ bg tc n =
                      (Except.error (500, HTTPDetail.dependencyMissing "PIL"),
                        [WriterEvent.opened, WriterEvent.closed], false) := by
                    simp [generate_video_run, render_text_video_run, framesImportError,
                      hbg, htc]
                  refine ⟨⟨HTTPDetail.dependencyMissing "PIL", by rw [hrun]⟩,
                    by rw [hrun]; rfl, fun him => by simp at him,
                    fun _ _ _ => ⟨fun hnu => by simp at hnu, fun _ _ => by rw [hrun]⟩⟩
              | true => simp at hmiss

/-- Witness: the amended C8 theorem applied with numpy missing and both
color strings well-formed. -/
theorem missing_dependency_witness :
    (generate_video_run ⟨false, true, true⟩ ("#fff".data) ("#000".data) 5).1 =
      Except.error (500, HTTPDetail.dependencyMissing "numpy") ∧
    file_exists_after (generate_video_run ⟨false, true, true⟩ ("#fff".data) ("#000".data) 5).2.1
      (generate_video_run ⟨false, true, true⟩ ("#fff".data) ("#000".data) 5).2.2 = false :=
  ⟨((missing_dependency_behavior ⟨false, true, true⟩ ("#fff".data) ("#000".data) 5
      (Or.inl rfl)).2.2.2 rfl (by decide) (by decide)).1 rfl,
   (missing_dependency_behavior ⟨false, true, true⟩ ("#fff".data) ("#000".data) 5
      (Or.inl rfl)).2.1⟩

/-! ## Lemmas about splitting, joining and stripping -/

theorem dropWhile_cons_of_neg (p : Char → Bool) (c : Char) (l : List Char)
    (h : p c = false) : List.dropWhile p (c :: l) = c :: l := by
  rw [List.dropWhile_cons, h]
  simp

theorem dropWhile_clean (w : List Char) (hw : ∀ c ∈ w, pyIsSpace c = false) :
    List.dropWhile pyIsSpace w = w := by
  cases w with
  | nil => rfl
  | cons c t => exact dropWhile_cons_of_neg _ _ _ (hw c (by simp))

theorem pyStrip_clean (w : List Char) (hw : ∀ c ∈ w, pyIsSpace c = false) :
    pyStrip w = w := by
  rw [pyStrip, dropWhile_clean w hw,
    dropWhile_clean _ (by intro c hc; exact hw c (List.mem_reverse.mp hc)),
    List.reverse_reverse]

theorem pyStrip_of_ends (c d : Char) (m : List Char) (hc : pyIsSpace c = false)
    (hd : pyIsSpace d = false) : pyStrip (c :: (m ++ [d])) = c :: (m ++ [d]) := by
  rw [pyStrip, dropWhile_cons_of_neg _ _ _ hc]
  rw [show (c :: (m ++ [d])).reverse = d :: (m.reverse ++ [c]) from by simp]
  rw [dropWhile_cons_of_neg _ _ _ hd]
  simp

theorem splitAux_clean_append (w : List Char) (hw : ∀ c ∈ w, pyIsSpace c = false) :
    ∀ acc rest, splitAux acc (w ++ rest) = splitAux (w.reverse ++ acc) rest := by
  induction w with
  | nil => intro acc rest; simp
  | cons c cw ih =>
      intro acc rest
      have hc : pyIsSpace c = false := hw c (by simp)
      rw [List.cons_append]
      simp only [splitAux, hc, Bool.false_eq_true, if_false]
      rw [ih (fun x hx => hw x (by simp [hx])) (c :: acc) rest]
      simp [List.append_assoc]

theorem joinSp_ne_nil (l : List (List Char)) (hl : ∀ w ∈ l, CleanWord w)
    (hne : l ≠ []) : joinSp l ≠ [] := by
  cases l with
  | nil => exact absurd rfl hne
  | cons a tail =>
      cases tail with
      | nil => exact (hl a (by simp)).1
      | cons v ws =>
          rw [show joinSp (a :: v :: ws) = a ++ ' ' :: joinSp (v :: ws) from rfl]
          simp

theorem pySplit_joinSp (l : List (List Char)) (hl : ∀ w ∈ l, CleanWord w) :
    pySplit (joinSp l) = l := by
  induction l with
  | nil => rfl
  | cons w tail ih =>
      have hw : CleanWord w := hl w (by simp)
      have htail : ∀ u ∈ tail, CleanWord u := fun u hu => hl u (by simp [hu])
      have hwrev : w.reverse ≠ [] := by
        simpa using hw.1
      cases tail with
      | nil =>
          have h := splitAux_clean_append w hw.2 [] []
          rw [List.append_nil] at h
          rw [show joinSp [w] = w from rfl, pySplit, h]
          simp only [splitAux, List.append_nil, hwrev, if_neg, List.reverse_reverse]
          simp [hwrev]
      | cons v ws =>
          rw [show joinSp (w :: v :: ws) = w ++ ' ' :: joinSp (v :: ws) from rfl]
          rw [pySplit, splitAux_clean_append w hw.2 [] (' ' :: joinSp (v :: ws))]
          rw [List.append_nil]
          simp only [splitAux, show pyIsSpace ' ' = true from by decide, if_true, hwrev,
            ite_false, List.reverse_reverse]
          rw [show splitAux [] (joinSp (v :: ws)) = pySplit (joinSp (v :: ws)) from rfl]
          rw [ih htail]

theorem joinSp_append_singleton (l : List (List Char)) (w : List Char) (hne : l ≠ []) :
    joinSp (l ++ [w]) = joinSp l ++ ' ' :: w := by
  induction l with
  | nil => exact absurd rfl hne
  | cons a tail ih =>
      cases tail with
      | nil => rfl
      | cons v ws =>
          rw [show (a :: v :: ws) ++ [w] = a :: ((v :: ws) ++ [w]) from rfl]
          rw [show ((v :: ws) ++ [w] : List (List Char)) = v :: (ws ++ [w]) from rfl]
          rw [show joinSp (a :: v :: (ws ++ [w])) = a ++ ' ' :: joinSp (v :: (ws ++ [w])) from rfl]
          rw [show (v :: (ws ++ [w]) : List (List Char)) = (v :: ws) ++ [w] from rfl]
          rw [ih (by simp)]
          rw [show joinSp (a :: v :: ws) = a ++ ' ' :: joinSp (v :: ws) from rfl]
          simp [List.append_assoc]

theorem pyStrip_join (l : List (List Char)) (w : List Char)
    (hl : ∀ u ∈ l, CleanWord u) (hw : CleanWord w) :
    pyStrip (joinSp l ++ ' ' :: w) = joinSp (l ++ [w]) := by
  cases l with
  | nil =>
      rw [show joinSp ([] : List (List Char)) = [] from rfl, List.nil_append]
      rw [pyStrip]
      rw [List.dropWhile_cons, show pyIsSpace ' ' = true from by decide, if_pos rfl]
      rw [dropWhile_clean w hw.2]
      rw [dropWhile_clean _ (by intro c hc; exact hw.2 c (List.mem_reverse.mp hc))]
      rw [List.reverse_reverse]
      rfl
  | cons a tail =>
      have ha : CleanWord a := hl a (by simp)
      obtain ⟨c, a2, hca⟩ := List.exists_cons_of_ne_nil ha.1
      have hc : pyIsSpace c = false := ha.2 c (by rw [hca]; simp)
      rcases List.eq_nil_or_concat w with hwnil | ⟨m, d, hmd⟩
      · exact absurd hwnil hw.1
      · rw [List.concat_eq_append] at hmd
        have hd : pyIsSpace d = false := hw.2 d (by rw [hmd]; simp)
        have hJ : ∃ t, joinSp (a :: tail) = c :: t := by
          cases tail with
          | nil => exact ⟨a2, by rw [show joinSp [a] = a from rfl, hca]⟩
          | cons v ws =>
              refine ⟨a2 ++ ' ' :: joinSp (v :: ws), ?_⟩
              rw [show joinSp (a :: v :: ws) = a ++ ' ' :: joinSp (v :: ws) from rfl, hca]
              rfl
        obtain ⟨t, hJ⟩ := hJ
        rw [hJ, hmd]
        rw [show (c :: t) ++ ' ' :: (m ++ [d]) = c :: ((t ++ ' ' :: m) ++ [d]) from by
          simp [List.append_assoc]]
        rw [pyStrip_of_ends c d _ hc hd]
        rw [show (c :: ((t ++ ' ' :: m) ++ [d]) : List Char) = (c :: t) ++ ' ' :: (m ++ [d]) from by
          simp [List.append_assoc]]
        rw [← hJ, ← hmd]
        exact (joinSp_append_singleton _ _ (by simp)).symm

theorem splitAux_clean (l : List Char) :
    ∀ acc : List Char, (∀ c ∈ acc, pyIsSpace c = false) →
      ∀ w ∈ splitAux acc l, CleanWord w := by
  induction l with
  | nil =>
      intro acc hacc w hw
      simp only [splitAux] at hw
      by_cases h : acc = []
      · simp [h] at hw
      · rw [if_neg h] at hw
        simp at hw
        subst hw
        exact ⟨by simpa using h, fun c hc => hacc c (List.mem_reverse.mp hc)⟩
  | cons c cs ih =>
      intro acc hacc w hw
      simp only [splitAux] at hw
      cases hsp : pyIsSpace c with
      | true =>
          rw [hsp] at hw
          simp only [if_true] at hw
          by_cases h0 : acc = []
          · rw [if_pos h0] at hw
            exact ih [] (by intro x hx; simp at hx) w hw
          · rw [if_neg h0] at hw
            rcases List.mem_cons.mp hw with h1 | h2
            · subst h1
              exact ⟨by simpa using h0, fun x hx => hacc x (List.mem_reverse.mp hx)⟩
            · exact ih [] (by intro x hx; simp at hx) w h2
      | false =>
          rw [hsp] at hw
          simp only [Bool.false_eq_true, if_false] at hw
          refine ih (c :: acc) ?_ w hw
          intro x hx
          rcases List.mem_cons.mp hx with h1 | h2
          · subst h1; exact hsp
          · exact hacc x h2

theorem pySplit_clean (l : List Char) : ∀ w ∈ pySplit l, CleanWord w :=
  splitAux_clean l [] (by intro c hc; simp at hc)

/-! ## The wrap loop preserves and bounds words -/

theorem wrapLoop_flat (measure : List Char → Nat) (mw : Nat) :
    ∀ ws l : List (List Char),
      (∀ w ∈ ws, CleanWord w) → (∀ w ∈ l, CleanWord w) →
      (wrapLoop measure mw (joinSp l) ws).flatMap pySplit = l ++ ws := by
  intro ws
  induction ws with
  | nil =>
      intro l hws hl
      simp only [wrapLoop]
      by_cases h : l = []
      · subst h
        simp [show joinSp ([] : List (List Char)) = [] from rfl]
      · have hne : joinSp l ≠ [] := joinSp_ne_nil l hl h
        rw [if_neg hne]
        simp [pySplit_joinSp l hl]
  | cons w ws ih =>
      intro l hws hl
      have hw : CleanWord w := hws w (by simp)
      have hws' : ∀ u ∈ ws, CleanWord u := fun u hu => hws u (by simp [hu])
      have hl' : ∀ u ∈ l ++ [w], CleanWord u := by
        intro u hu
        rcases List.mem_append.mp hu with h | h
        · exact hl u h
        · simp at h; subst h; exact hw
      simp only [wrapLoop]
      rw [pyStrip_join l w hl hw]
      by_cases hcond : measure (joinSp (l ++ [w])) ≤ mw ∨ joinSp l = []
      · rw [if_pos hcond, ih (l ++ [w]) hws' hl']
        simp
      · rw [if_neg hcond]
        have hjw : joinSp [w] = w := rfl
        have h1 := ih [w] hws' (by intro u hu; simp at hu; subst hu; exact hw)
        rw [hjw] at h1
        simp only [List.flatMap_cons]
        rw [h1, pySplit_joinSp l hl]
        simp

theorem wrapLoop_shape (measure : List Char → Nat) (mw : Nat) :
    ∀ ws l : List (List Char),
      (∀ w ∈ ws, CleanWord w) → (∀ w ∈ l, CleanWord w) →
      (l = [] ∨ (∃ u, l = [u]) ∨ measure (joinSp l) ≤ mw) →
      ∀ line ∈ wrapLoop measure mw (joinSp l) ws,
        ∃ lw, (∀ u ∈ lw, CleanWord u) ∧ lw ≠ [] ∧ line = joinSp lw ∧
          (measure line ≤ mw ∨ ∃ u, lw = [u]) := by
  intro ws
  induction ws with
  | nil =>
      intro l hws hl hinv line hline
      simp only [wrapLoop] at hline
      by_cases h : joinSp l = []
      · simp [h] at hline
      · rw [if_neg h] at hline
        simp at hline
        subst hline
        have hlne : l ≠ [] := by
          intro h0; exact h (by rw [h0]; rfl)
        refine ⟨l, hl, hlne, rfl, ?_⟩
        rcases hinv with h0 | hu | hm
        · exact absurd h0 hlne
        · exact Or.inr hu
        · exact Or.inl hm
  | cons w ws ih =>
      intro l hws hl hinv line hline
      have hw : CleanWord w := hws w (by simp)
      have hws' : ∀ u ∈ ws, CleanWord u := fun u hu => hws u (by simp [hu])
      have hl' : ∀ u ∈ l ++ [w], CleanWord u := by
        intro u hu
        rcases List.mem_append.mp hu with h | h
        · exact hl u h
        · simp at h; subst h; exact hw
      simp only [wrapLoop] at hline
      rw [pyStrip_join l w hl hw] at hline
      by_cases hcond : measure (joinSp (l ++ [w])) ≤ mw ∨ joinSp l = []
      · rw [if_pos hcond] at hline
        refine ih (l ++ [w]) hws' hl' ?_ line hline
        by_cases hm : measure (joinSp (l ++ [w])) ≤ mw
        · exact Or.inr (Or.inr hm)
        · have h0 : joinSp l = [] := hcond.resolve_left hm
          have hle : l = [] := by
            by_contra hne
            exact joinSp_ne_nil l hl hne h0
          exact Or.inr (Or.inl ⟨w, by rw [hle]; rfl⟩)
      · rw [if_neg hcond] at hline
        rcases List.mem_cons.mp hline with h1 | h2
        · subst h1
          have hne : joinSp l ≠ [] := fun h0 => hcond (Or.inr h0)
          have hlne : l ≠ [] := fun h0 => hne (by rw [h0]; rfl)
          refine ⟨l, hl, hlne, rfl, ?_⟩
          rcases hinv with h0 | hu | hm
          · exact absurd h0 hlne
          · exact Or.inr hu
          · exact Or.inl hm
        · have hjw : joinSp [w] = w := rfl
          refine ih [w] hws' (by intro u hu; simp at hu; subst hu; exact hw)
            (Or.inr (Or.inl ⟨w, rfl⟩)) line ?_
          rw [hjw]
          exact h2

theorem measure_word_le (measure : List Char → Nat)
    (hmono : ∀ a b : List Char, measure a ≤ measure (a ++ ' ' :: b) ∧
      measure b ≤ measure (a ++ ' ' :: b)) :
    ∀ l : List (List Char), ∀ w ∈ l, measure w ≤ measure (joinSp l) := by
  intro l
  induction l with
  | nil => intro w hw; simp at hw
  | cons a tail ih =>
      intro w hw
      cases tail with
      | nil =>
          simp at hw
          subst hw
          exact le_refl _
      | cons v ws =>
          rw [show joinSp (a :: v :: ws) = a ++ ' ' :: joinSp (v :: ws) from rfl]
          rcases List.mem_cons.mp hw with h | h
          · subst h
            exact (hmono w (joinSp (v :: ws))).1
          · exact le_trans (ih w h) (hmono a (joinSp (v :: ws))).2

/-- Claim C1: for every text and every width measure, `wrap_text` neither
drops nor reorders words: splitting each produced line on whitespace and
concatenating the word lists in line order yields exactly the
whitespace-split word sequence of the original text. -/
theorem wrap_text_preserves_words (measure : List Char → Nat) (text : List Char)
    (mw : Nat) : (wrap_text measure text mw).flatMap pySplit = pySplit text := by
  have h := wrapLoop_flat measure mw (pySplit text) [] (pySplit_clean text)
    (by intro u hu; simp at hu)
  rw [wrap_text]
  simpa using h

/-- Claim C9: under a width measure that is monotone with respect to
joining (as a pixel-width text measure is), every line produced by
`wrap_text` fits within `max_width`, except that a line consisting of a
single word may exceed it; any word wider than `max_width` is never split
and never shares its line with another word. -/
theorem wrap_text_line_fits (measure : List Char → Nat) (text : List Char) (mw : Nat)
    (hmono : ∀ a b : List Char, measure a ≤ measure (a ++ ' ' :: b) ∧
      measure b ≤ measure (a ++ ' ' :: b)) :
    ∀ line ∈ wrap_text measure text mw,
      (measure line ≤ mw ∨ (mw < measure line ∧ pySplit line = [line])) ∧
      (∀ w ∈ pySplit line, mw < measure w → pySplit line = [line]) := by
  intro line hline
  rw [wrap_text] at hline
  obtain ⟨lw, hlwclean, hlwne, hline_eq, hdisj⟩ :=
    wrapLoop_shape measure mw (pySplit text) [] (pySplit_clean text)
      (by intro u hu; simp at hu) (Or.inl rfl) line hline
  have hsplit : pySplit line = lw := by
    rw [hline_eq]; exact pySplit_joinSp lw hlwclean
  constructor
  · by_cases hm : measure line ≤ mw
    · exact Or.inl hm
    · refine Or.inr ⟨by omega, ?_⟩
      rcases hdisj with h | ⟨u, hu⟩
      · exact absurd h hm
      · have hlineu : line = u := by rw [hline_eq, hu]; rfl
        rw [hsplit, hu, hlineu]
  · intro w hw hwm
    rcases hdisj with h | ⟨u, hu⟩
    · rw [hsplit] at hw
      have hle : measure w ≤ measure (joinSp lw) := measure_word_le measure hmono lw w hw
      rw [← hline_eq] at hle
      exact absurd (le_trans hle h) (not_le.mpr hwm)
    · have hlineu : line = u := by rw [hline_eq, hu]; rfl
      rw [hsplit, hu, hlineu]

/-- Witness: the C9 theorem applied with the length measure to a text
containing an overlong word. -/
theorem wrap_text_line_fits_witness :
    List.length ("extraordinary".data) ≤ 5 ∨
      (5 < List.length ("extraordinary".data) ∧
        pySplit ("extraordinary".data) = [("extraordinary".data)]) :=
  ((wrap_text_line_fits List.length ("hi extraordinary".data) 5
      (by
        intro a b
        constructor <;> (simp only [List.length_append, List.length_cons]; omega)))
    ("extraordinary".data) (by decide)).1

end TextVideo
